import Mathlib

/-!
Verification of the wisp compiler's code-generation and module-serialization
pipeline (src/src/resolver.rs, src/src/emitter.rs, src/src/compiler.rs,
src/src/encoder.rs), shallowly embedded in Lean.

Conventions of the embedding:
* Rust functions that mutate an output `Vec` are modelled as functions that
  return the produced list; call sites concatenate in the source's order.
* Fallible Rust code (`Result`, `bail!`, `ensure!`, `todo!`, panics) is
  modelled with `Except EmitErr` / `Option`, one error constructor per
  distinct failure kind of the source.
* The recursive expression emitter takes an explicit fuel argument
  (structural recursion); every claim about it either supplies enough fuel
  explicitly or takes the sub-emissions' results as hypotheses.
* Machine integers are `Nat`/`Int` with explicit `% 2 ^ w` where the source
  truncates (`as u16` in the signature interner, `as u8` in the signature
  writer).
* Rust `f32` values are not embedded (floating point); an `F32Const`
  carries the accepted source literal.  No claim depends on IEEE-754 value
  identity, and the one place the bits are written (`to_le_bytes` in
  `write_function_body`) is abstracted as a byte-function parameter.
-/

set_option maxRecDepth 8000

namespace Wisp

/-- Semantic type of the resolver (`Type` in src/src/resolver.rs; renamed
because `Type` is reserved in Lean): closed variant I32, F32, Bool, Unit. -/
inductive Ty where
  | I32
  | F32
  | Bool
  | Unit
deriving DecidableEq, Repr

/-- Physical stack-slot type (`PrimitiveType` in src/src/emitter.rs, imported
as `WasmPrimitiveType` by src/src/resolver.rs): I32 = 0x7F, F32 = 0x6F. -/
inductive WasmPrimitiveType where
  | I32
  | F32
deriving DecidableEq, Repr

/-- Byte value the serializer writes for a primitive type (the enum
discriminants `I32 = 0x7F, F32 = 0x6F` of src/src/emitter.rs). -/
def primByte : WasmPrimitiveType → Nat
  | .I32 => 0x7F
  | .F32 => 0x6F

/-- Surface type annotation (`TypeAST` of the external parser; the variants
are the ones src/src/resolver.rs matches on). -/
inductive TypeAST where
  | I32
  | F32
  | Bool
  | Unit
deriving DecidableEq, Repr

/-- Embeds `resolve_type` of src/src/resolver.rs (the `TypeEnv` argument is
unused by the source's match and is omitted). -/
def resolve_type : TypeAST → Ty
  | .I32 => .I32
  | .F32 => .F32
  | .Bool => .Bool
  | .Unit => .Unit

/-- Embeds `dissolve_type` of src/src/resolver.rs: I32 and Bool dissolve to
one I32 slot, F32 to one F32 slot, Unit to no slot. -/
def dissolve_type : Ty → List WasmPrimitiveType
  | .I32 => [.I32]
  | .Bool => [.I32]
  | .F32 => [.F32]
  | .Unit => []

/-- Signature kind (`SignatureType` in src/src/emitter.rs): Func = 0x60. -/
inductive SignatureType where
  | Func
deriving DecidableEq, Repr

/-- Byte value of a signature kind (the enum discriminant `Func = 0x60`). -/
def sigTypeByte : SignatureType → Nat
  | .Func => 0x60

/-- Embeds `Signature` of src/src/emitter.rs: kind, ordered params, ordered
results; compared structurally (the source derives `PartialEq, Eq, Hash`). -/
structure Signature where
  sig_type : SignatureType
  params : List WasmPrimitiveType
  results : List WasmPrimitiveType
deriving DecidableEq, Repr

/-- Embeds `OpCode` of src/src/emitter.rs.  `F32Const` carries the accepted
source literal text instead of an IEEE-754 value (see the file comment);
`LocalDeclCount`/`LocalGet` carry the source's `u8` as `Nat`, `Call` and
`I32Const` the source's `u32`/`i32`. -/
inductive OpCode where
  | Drop
  | End
  | LocalDeclCount (n : Nat)
  | LocalGet (n : Nat)
  | Call (n : Nat)
  | I32Const (n : Int)
  | F32Const (lit : String)
  | I32Add
  | I32Sub
  | I32Mul
  | I32Div
  | F32Add
  | F32Sub
  | F32Mul
  | F32Div
  | F32Neg
  | F32ConvertI32S
deriving DecidableEq, Repr

/-- Embeds `Function` of src/src/emitter.rs. -/
structure Function where
  signature_index : Nat
  arg_types : List Ty
  result_type : Ty
  body : List OpCode
deriving DecidableEq, Repr

/-- Modelled from the spec: the abstract syntax tree of the external parser
(spec section 6 lists the node kinds: Module, List, Vector, Symbol —
optionally with a type annotation — NumberLiteral; src/src/emitter.rs also
matches the operator heads `AST::Add`, `AST::Sub`, `AST::Mul`, `AST::Div`).
The parser itself (src/src/parser.rs) is not among the repository's staged
files. -/
inductive AST where
  | Module (tops : List AST)
  | List (items : List AST)
  | Vector (items : List AST)
  | Symbol (name : String)
  | SymbolWithAnnotation (name : String) (ty : TypeAST)
  | NumberLiteral (lit : String)
  | Add
  | Sub
  | Mul
  | Div

/-- Modelled from the spec: a `Variable` of the symbol environment (spec
section 3: storage location — currently always a function-local slot index —
and the resolved semantic type).  The environment module (src/src/env.rs)
is not among the repository's staged files. -/
structure Variable where
  pointer : Nat
  t : Ty
deriving DecidableEq, Repr

/-- Modelled from the spec: the chained lexical environment, flattened to
the sequence of name bindings its child-to-parent lookup walks. -/
abbrev Env := List (String × Variable)

/-- Lookup in the environment: first binding of the name wins (the child
scope shadows the parent). -/
def envGet : Env → String → Option Variable
  | [], _ => none
  | (n, v) :: rest, name => if n = name then some v else envGet rest name

/-- Numeric value of a digit string (most significant first), as Rust's
integer parser accumulates it. -/
def digitsToNat (cs : List Char) : Nat :=
  cs.foldl (fun a c => a * 10 + (c.toNat - 48)) 0

/-- Embeds Rust's `str::parse::<i32>()` as src/src/emitter.rs uses it: an
optional single sign, then one or more ASCII digits, value within
[-2^31, 2^31 - 1]; anything else (empty digits, other characters,
overflow) is `none`. -/
def parseI32 (s : String) : Option Int :=
  match s.data with
  | [] => none
  | c :: cs =>
    let signDigits : Int × List Char :=
      if c = '-' then (-1, cs) else if c = '+' then (1, cs) else (1, c :: cs)
    if signDigits.2.isEmpty then none
    else if signDigits.2.all Char.isDigit then
      let v : Int := signDigits.1 * (digitsToNat signDigits.2 : Nat)
      if -2147483648 ≤ v ∧ v ≤ 2147483647 then some v else none
    else none

/-- Longest ASCII-digit prefix of a character list, and the rest. -/
def takeDigits : List Char → List Char × List Char
  | [] => ([], [])
  | c :: cs =>
    if c.isDigit then
      let p := takeDigits cs
      (c :: p.1, p.2)
    else ([], c :: cs)

/-- Accepts an optional exponent suffix of Rust's float grammar:
empty, or `('e'|'E') sign? digit+` with nothing after it. -/
def expOk : List Char → Bool
  | [] => true
  | c :: cs =>
    if c = 'e' ∨ c = 'E' then
      let cs2 := match cs with
        | [] => ([] : List Char)
        | d :: ds => if d = '+' ∨ d = '-' then ds else d :: ds
      let p := takeDigits cs2
      !p.1.isEmpty && p.2.isEmpty
    else false

/-- Accepts the number body of Rust's float grammar:
`digit+ ('.' digit*)? exp?` or `'.' digit+ exp?`. -/
def numberOk (cs : List Char) : Bool :=
  let p := takeDigits cs
  match p.2 with
  | '.' :: r2 =>
    let q := takeDigits r2
    (!p.1.isEmpty || !q.1.isEmpty) && expOk q.2
  | _ => !p.1.isEmpty && expOk p.2

/-- Drops one leading `+` or `-`. -/
def stripSign : List Char → List Char
  | [] => []
  | c :: cs => if c = '+' ∨ c = '-' then cs else c :: cs

/-- Embeds the accepting set of Rust's `str::parse::<f32>()` as
src/src/emitter.rs uses it: optional sign, then case-insensitive
`inf`/`infinity`/`nan` or a decimal number with optional fraction and
exponent.  Only acceptance is modelled; the float value is not (see the
file comment). -/
def parseF32Ok (s : String) : Bool :=
  let cs := stripSign s.data
  let low := cs.map Char.toLower
  (low == "inf".data) || (low == "infinity".data) || (low == "nan".data)
    || numberOk cs

/-- One error constructor per distinct failure of the emission pipeline
(each `bail!`/`ensure!`/`todo!` of src/src/emitter.rs; spec section 7 names
the kinds).  `outOfFuel` is the embedding's own marker for exhausted fuel
and corresponds to no behavior of the source. -/
inductive EmitErr where
  | numberFormat
  | unboundSymbol (name : String)
  | unknownFunction (name : String)
  | arity
  | typeMismatch
  | returnTypeMismatch (expected found : Ty)
  | unsupported
  | invalidArgument
  | indexOutOfBounds
  | outOfFuel
deriving DecidableEq, Repr

/-- The Module's function table (`functions: HashMap<String, (usize,
Function)>` of src/src/emitter.rs), modelled as the association sequence of
its entries; `lookupFunction` models `HashMap::get`. -/
abbrev FuncTable := List (String × Nat × Function)

/-- Name lookup in the function table (`module.functions.get(name)`). -/
def lookupFunction : FuncTable → String → Option (Nat × Function)
  | [], _ => none
  | (n, e) :: rest, name => if n = name then some e else lookupFunction rest name

/-- Binary operator of src/src/emitter.rs (`BinOp`). -/
inductive BinOp where
  | Add
  | Sub
  | Mul
  | Div
deriving DecidableEq, Repr

/-- The F32 opcode `emit_bin_exp` selects for an operator. -/
def f32_opcode : BinOp → OpCode
  | .Add => .F32Add
  | .Sub => .F32Sub
  | .Mul => .F32Mul
  | .Div => .F32Div

/-- The I32 opcode `emit_bin_exp` selects for an operator. -/
def i32_opcode : BinOp → OpCode
  | .Add => .I32Add
  | .Sub => .I32Sub
  | .Mul => .I32Mul
  | .Div => .I32Div

/-- Embeds the type dispatch of `emit_bin_exp` (src/src/emitter.rs lines
134-222), given the operands' already-emitted code and types: same numeric
type uses that type's opcode; an I32 operand facing an F32 operand gets
`F32ConvertI32S` appended to its own code; the assembled stream is
lhs-code, rhs-code, opcode; a non-numeric operand fails (`bail!`). -/
def emit_bin_core (op : BinOp) (lhs_type rhs_type : Ty)
    (lhs_temp_vec rhs_temp_vec : List OpCode) :
    Except EmitErr (List OpCode × Ty) :=
  match lhs_type, rhs_type with
  | .I32, .F32 =>
    .ok ((lhs_temp_vec ++ [.F32ConvertI32S]) ++ rhs_temp_vec
          ++ [f32_opcode op], .F32)
  | .I32, .I32 =>
    .ok (lhs_temp_vec ++ rhs_temp_vec ++ [i32_opcode op], .I32)
  | .F32, .I32 =>
    .ok (lhs_temp_vec ++ (rhs_temp_vec ++ [.F32ConvertI32S])
          ++ [f32_opcode op], .F32)
  | .F32, .F32 =>
    .ok (lhs_temp_vec ++ rhs_temp_vec ++ [f32_opcode op], .F32)
  | _, _ => .error .typeMismatch

/-- Embeds the type dispatch of `emit_unary_exp` (src/src/emitter.rs lines
96-121), given the operand's already-emitted code and type: F32 appends
`F32Neg` after the operand; I32 emits a zero constant, the operand, then
`I32Sub`; anything else fails (`bail!`). -/
def emit_unary_core (t : Ty) (temp_vec : List OpCode) :
    Except EmitErr (List OpCode × Ty) :=
  match t with
  | .F32 => .ok (temp_vec ++ [.F32Neg], .F32)
  | .I32 => .ok ([.I32Const 0] ++ temp_vec ++ [.I32Sub], .I32)
  | _ => .error .typeMismatch

/-- Embeds the tail of `emit_function_call` (src/src/emitter.rs lines
224-237): the arguments' emitted code in order, one `Call` with the
callee's index, result type the callee's declared result type. -/
def emit_function_call (index : Nat) (func : Function)
    (argResults : List (List OpCode × Ty)) : List OpCode × Ty :=
  ((argResults.map Prod.fst).flatten ++ [.Call index], func.result_type)

/-- Embeds `emit_obj` together with the inlined `emit_list` of
src/src/emitter.rs (lines 238-322), with explicit fuel for the recursion.
List forms: `+ * /` need exactly two operands (`ensure!`, else arity
error); `-` with one operand is unary minus, with two binary subtraction,
else an arity error; a symbol head is `let` (a `todo!`, modelled
`unsupported`) or a function call whose name must already be in the
function table; any other head is a `todo!`.  Indexing `list[0]` of an
empty list panics in the source (`indexOutOfBounds`).  A number literal is
tried as i32 first, then f32, else `NumberFormatError`; a bare symbol is an
environment lookup resolving to `LocalGet`; other objects are `todo!`. -/
def emit_obj : Nat → FuncTable → AST → Env → Except EmitErr (List OpCode × Ty)
  | 0, _, _, _ => .error .outOfFuel
  | fuel + 1, functions, ast, env =>
    match ast with
    | .List items =>
      match items with
      | [] => .error .indexOutOfBounds
      | first :: args =>
        match first, args with
        | .Add, [lhs, rhs] => do
          let l ← emit_obj fuel functions lhs env
          let r ← emit_obj fuel functions rhs env
          emit_bin_core .Add l.2 r.2 l.1 r.1
        | .Add, _ => .error .arity
        | .Mul, [lhs, rhs] => do
          let l ← emit_obj fuel functions lhs env
          let r ← emit_obj fuel functions rhs env
          emit_bin_core .Mul l.2 r.2 l.1 r.1
        | .Mul, _ => .error .arity
        | .Div, [lhs, rhs] => do
          let l ← emit_obj fuel functions lhs env
          let r ← emit_obj fuel functions rhs env
          emit_bin_core .Div l.2 r.2 l.1 r.1
        | .Div, _ => .error .arity
        | .Sub, [operand] => do
          let o ← emit_obj fuel functions operand env
          emit_unary_core o.2 o.1
        | .Sub, [lhs, rhs] => do
          let l ← emit_obj fuel functions lhs env
          let r ← emit_obj fuel functions rhs env
          emit_bin_core .Sub l.2 r.2 l.1 r.1
        | .Sub, _ => .error .arity
        | .Symbol name, _ =>
          if name = "let" then .error .unsupported
          else
            match lookupFunction functions name with
            | none => .error (.unknownFunction name)
            | some (index, func) => do
              let argResults ← args.mapM (fun a => emit_obj fuel functions a env)
              .ok (emit_function_call index func argResults)
        | _, _ => .error .unsupported
    | .NumberLiteral literal =>
      match parseI32 literal with
      | some v => .ok ([.I32Const v], .I32)
      | none =>
        if parseF32Ok literal then .ok ([.F32Const literal], .F32)
        else .error .numberFormat
    | .Symbol name =>
      match envGet env name with
      | none => .error (.unboundSymbol name)
      | some v => .ok ([.LocalGet v.pointer], v.t)
    | _ => .error .unsupported

/-- Embeds `emit_bin_exp` of src/src/emitter.rs (lines 122-223): both
operands are emitted into their own temporary buffers first, then
`emit_bin_core` coerces and assembles them. -/
def emit_bin_exp (fuel : Nat) (functions : FuncTable) (op : BinOp)
    (lhs rhs : AST) (env : Env) : Except EmitErr (List OpCode × Ty) := do
  let l ← emit_obj fuel functions lhs env
  let r ← emit_obj fuel functions rhs env
  emit_bin_core op l.2 r.2 l.1 r.1

/-- Embeds `emit_unary_exp` of src/src/emitter.rs (lines 96-121). -/
def emit_unary_exp (fuel : Nat) (functions : FuncTable) (operand : AST)
    (env : Env) : Except EmitErr (List OpCode × Ty) := do
  let o ← emit_obj fuel functions operand env
  emit_unary_core o.2 o.1

/-- Embeds the body-form loop of `emit_func` (src/src/emitter.rs lines
393-415): every form but the last is emitted and drained with one `Drop`
per dissolved stack slot; the last form is drained the same way when the
declared result type is Unit, and otherwise must have exactly the declared
result type or emission fails with the return-type mismatch error. -/
def emit_forms (fuel : Nat) (functions : FuncTable) (result_type : Ty)
    (env : Env) : List AST → Except EmitErr (List OpCode)
  | [] => .ok []
  | form :: rest =>
    if rest.isEmpty then do
      let o ← emit_obj fuel functions form env
      if result_type = .Unit then
        .ok (o.1 ++ List.replicate (dissolve_type o.2).length .Drop)
      else if o.2 ≠ result_type then
        .error (.returnTypeMismatch result_type o.2)
      else .ok o.1
    else do
      let o ← emit_obj fuel functions form env
      let restCode ← emit_forms fuel functions result_type env rest
      .ok (o.1 ++ List.replicate (dissolve_type o.2).length .Drop ++ restCode)

/-- Modelled from the spec: the unsigned LEB128 encoder behind
`encode_leb128` of src/src/encoder.rs (the source delegates to the external
`leb128` crate, whose code is not in the repository; spec section 4.4 and
the glossary call it unsigned LEB128, and the repository's encoder tests
pin these bytes).  Emits the low 7 bits little-endian first, the high bit
marking continuation.  `fuel` bounds the loop; 64 iterations cover every
`u64` (10 bytes suffice). -/
def uleb128Aux : Nat → Nat → List Nat
  | 0, _ => []
  | fuel + 1, n =>
    let byte := n % 128
    let rest := n / 128
    if rest = 0 then [byte] else (byte + 128) :: uleb128Aux fuel rest

/-- Embeds `encode_leb128` of src/src/encoder.rs (unsigned LEB128 of a
`u64`-ranged value). -/
def encode_leb128 (n : Nat) : List Nat :=
  uleb128Aux 64 n

/-- Modelled from the spec: a standard LEB128 unsigned decoder (spec
section 8's round-trip property names one; no decoder exists in the
repository).  Low 7 bits of each byte, little-endian; a byte below 0x80
ends the value; an empty or truncated stream is `none`. -/
def decode_uleb128 : List Nat → Option Nat
  | [] => none
  | b :: rest =>
    if b < 128 then some b
    else
      match decode_uleb128 rest with
      | some v => some (b - 128 + 128 * v)
      | none => none

/-- Modelled from the spec: the signed LEB128 encoder behind
`encode_s_leb128` of src/src/encoder.rs (the source delegates to the
external `leb128` crate; the repository's encoder tests pin these bytes).
Two's-complement 7-bit groups: emission stops once the remaining value is
0 with the sign bit of the last byte clear, or -1 with it set. -/
def sleb128Aux : Nat → Int → List Nat
  | 0, _ => []
  | fuel + 1, n =>
    let byte := (Int.emod n 128).toNat
    let rest := Int.fdiv n 128
    if (rest = 0 ∧ byte < 64) ∨ (rest = -1 ∧ 64 ≤ byte) then [byte]
    else (byte + 128) :: sleb128Aux fuel rest

/-- Embeds `encode_s_leb128` of src/src/encoder.rs (signed LEB128 of an
`i64`-ranged value). -/
def encode_s_leb128 (n : Int) : List Nat :=
  sleb128Aux 64 n

/-- The signature interning table (`signatures: HashMap<Signature, u16>` of
src/src/emitter.rs), modelled as the association sequence of its entries in
insertion order; `sigLookup` models `HashMap::get`, keyed by structural
equality as the source's derived `Eq`/`Hash` are. -/
abbrev SigTable := List (Signature × Nat)

/-- Key lookup in the interning table (`module.signatures.get(&signature)`). -/
def sigLookup : SigTable → Signature → Option Nat
  | [], _ => none
  | (s, i) :: rest, key => if s = key then some i else sigLookup rest key

/-- Embeds the signature-interning step of `emit_func` (src/src/emitter.rs
lines 426-433): reuse the index of a structurally equal signature, else
insert the signature with index `signatures.len() as u16` — the `u16` cast
is the explicit `% 65536`. -/
def internSignature (table : SigTable) (signature : Signature) : SigTable × Nat :=
  match sigLookup table signature with
  | some index => (table, index)
  | none => (table ++ [(signature, table.length % 65536)], table.length % 65536)

/-- The interning table after interning a sequence of signatures in order
into an initially empty module. -/
def internAll (sigs : List Signature) : SigTable :=
  sigs.foldl (fun t s => (internSignature t s).1) []

/-- First occurrences of a list's elements, in order: the sequence of
distinct signatures a module ever interns, in insertion order. -/
def distincts (sigs : List Signature) : List Signature :=
  sigs.foldl (fun acc s => if s ∈ acc then acc else acc ++ [s]) []

/-- Reference shape of a reachable interning table: the distinct signatures
in insertion order, the k-th paired with index `k % 65536`. -/
def withIndices : List Signature → Nat → SigTable
  | [], _ => []
  | s :: rest, k => (s, k % 65536) :: withIndices rest (k + 1)

/-- Ordered insertion by assigned index, the comparison
`a.1.partial_cmp(b.1)` of `write_type_section` uses on `u16`. -/
def insertByIndex (p : Signature × Nat) : SigTable → SigTable
  | [] => [p]
  | q :: rest => if p.2 ≤ q.2 then p :: q :: rest else q :: insertByIndex p rest

/-- Embeds the `sort_by(|a, b| a.1.partial_cmp(b.1))` of
`write_type_section` (src/src/compiler.rs line 98): the table's entries in
ascending assigned-index order (insertion sort; the model's table order is
insertion order, and the sort makes the output order canonical just as the
source's sort canonicalizes the hash map's iteration order). -/
def sortByIndex (table : SigTable) : SigTable :=
  table.foldr insertByIndex []

/-- The signatures `write_type_section` serializes, in the order it writes
them (ascending assigned index). -/
def typeSectionSignatures (table : SigTable) : List Signature :=
  (sortByIndex table).map Prod.fst

/-- Embeds `write_signature` of src/src/compiler.rs (lines 15-39): the
signature-kind byte, then `params.len() as u8` as a single byte (the `u8`
cast is the explicit `% 256`), one byte per param, `results.len() as u8`
as a single byte, one byte per result. -/
def write_signature (signature : Signature) : List Nat :=
  [sigTypeByte signature.sig_type]
    ++ [signature.params.length % 256]
    ++ signature.params.map primByte
    ++ [signature.results.length % 256]
    ++ signature.results.map primByte

/-- Modelled from the claim's words, for comparison with `write_signature`:
a signature encoded with unsigned-varint param and result counts, as the
spec's Type-section sentence states. -/
def write_signature_claimed (signature : Signature) : List Nat :=
  [sigTypeByte signature.sig_type]
    ++ encode_leb128 signature.params.length
    ++ signature.params.map primByte
    ++ encode_leb128 signature.results.length
    ++ signature.results.map primByte

/-- Embeds the Type-section payload of `write_type_section`
(src/src/compiler.rs lines 92-107): unsigned-varint count of distinct
signatures, then each signature in ascending assigned-index order. -/
def write_type_section_payload (table : SigTable) : List Nat :=
  encode_leb128 table.length
    ++ (typeSectionSignatures table).flatMap write_signature

/-- Embeds the Function-section payload of `write_function_section`
(src/src/compiler.rs lines 109-121): unsigned-varint function count, then
each iterated function's signature index as an unsigned varint.  The
argument is the sequence in which `for func in &module.functions` visits
the name-keyed `functions` table: the source iterates that `HashMap`
directly, so the order is whatever the table's iteration order is. -/
def write_function_section_payload (functionsIter : List (String × Nat × Function)) :
    List Nat :=
  encode_leb128 functionsIter.length
    ++ functionsIter.flatMap (fun e => encode_leb128 e.2.2.signature_index)

/-- Embeds the per-opcode byte emission of `write_function_body`
(src/src/compiler.rs lines 50-90).  `f32bytes` abstracts
`f32::to_le_bytes` (IEEE-754 bits, not embedded).  The source's inner
opcode match has no arm for `Drop` or `Call` — it is non-exhaustive, so
those opcodes have no defined byte emission: `none`. -/
def write_opcode (f32bytes : String → List Nat) : OpCode → Option (List Nat)
  | .LocalDeclCount n => some (encode_leb128 n)
  | .F32Const lit => some (0x43 :: f32bytes lit)
  | .I32Const n => some (0x41 :: encode_s_leb128 n)
  | .LocalGet n => some (0x20 :: encode_leb128 n)
  | .End => some [0x0B]
  | .I32Add => some [0x6A]
  | .I32Sub => some [0x6B]
  | .I32Mul => some [0x6C]
  | .I32Div => some [0x6D]
  | .F32Neg => some [0x8C]
  | .F32Add => some [0x92]
  | .F32Sub => some [0x93]
  | .F32Mul => some [0x94]
  | .F32Div => some [0x95]
  | .F32ConvertI32S => some [0xB2]
  | .Drop => none
  | .Call _ => none

/-- Embeds `write_function_body` of src/src/compiler.rs (lines 50-90): the
concatenated byte emission of the body's opcodes, or `none` if any opcode
has no arm in the source's match. -/
def write_function_body (f32bytes : String → List Nat) (func : Function) :
    Option (List Nat) :=
  (func.body.mapM (write_opcode f32bytes)).map List.flatten

/-- Signature with `n` I32 params and no result: `n` distinct arities give
`n` structurally distinct signatures. -/
def sigOfArity (n : Nat) : Signature :=
  { sig_type := .Func, params := List.replicate n .I32, results := [] }

/-- Sequence of 65537 structurally distinct signatures: one more than the
`u16` index space of the interning table. -/
def bigSigs : List Signature :=
  (List.range 65537).map sigOfArity

/-- Signature of one I32 param and an I32 result. -/
def sigI : Signature :=
  { sig_type := .Func, params := [.I32], results := [.I32] }

/-- Signature of one F32 param and an F32 result. -/
def sigF : Signature :=
  { sig_type := .Func, params := [.F32], results := [.F32] }

/-- Signature with 128 I32 params and an I32 result: its param count does
not fit a one-byte unsigned varint. -/
def sig128 : Signature :=
  { sig_type := .Func, params := List.replicate 128 .I32, results := [.I32] }

/-- Function of signature index 0 with a constant body, as the emitter
builds for `(defn a : i32 [] 1)`. -/
def funcA : Function :=
  { signature_index := 0, arg_types := [], result_type := .I32,
    body := [.LocalDeclCount 0, .I32Const 1, .End] }

/-- Function of signature index 1 with a constant body, as the emitter
builds for `(defn b : f32 [] 1.5)`. -/
def funcB : Function :=
  { signature_index := 1, arg_types := [], result_type := .F32,
    body := [.LocalDeclCount 0, .F32Const "1.5", .End] }

/-- Function whose body the emitter builds for `(defn main [] 1)`: the
Unit result type drains the last form with a `Drop`. -/
def funcMain : Function :=
  { signature_index := 0, arg_types := [], result_type := .Unit,
    body := [.LocalDeclCount 0, .I32Const 1, .Drop, .End] }


/-- Reproduces the expected opcode stream of the repository's own
`test_bin_ops` (src/src/emitter.rs lines 485-531): the body expression of
`(defn calc : f32 [a : f32 b : i32] (* 10 (/ (+ a (- b 1)) 2)))`. -/
theorem emit_obj_calc_example :
    emit_obj 9 []
      (.List [.Mul, .NumberLiteral "10",
        .List [.Div,
          .List [.Add, .Symbol "a", .List [.Sub, .Symbol "b", .NumberLiteral "1"]],
          .NumberLiteral "2"]])
      [("a", { pointer := 0, t := .F32 }), ("b", { pointer := 1, t := .I32 })]
      = .ok ([.I32Const 10, .F32ConvertI32S, .LocalGet 0, .LocalGet 1,
              .I32Const 1, .I32Sub, .F32ConvertI32S, .F32Add, .I32Const 2,
              .F32ConvertI32S, .F32Div, .F32Mul], .F32) := by
  rfl

/-- Reproduces the expected bytes of the repository's own encoder tests
(src/src/encoder.rs `test_unsigned` and `test_signed`). -/
theorem encoder_tests_example :
    encode_leb128 0 = [0x00] ∧ encode_leb128 1 = [0x01]
    ∧ encode_leb128 63 = [0x3f] ∧ encode_leb128 64 = [0x40]
    ∧ encode_leb128 8191 = [0xff, 0x3f] ∧ encode_leb128 8192 = [0x80, 0x40]
    ∧ encode_s_leb128 64 = [0xc0, 0x00] ∧ encode_s_leb128 8191 = [0xff, 0x3f]
    ∧ encode_s_leb128 8192 = [0x80, 0xc0, 0x00] := by
  decide

/-- C1: the Function section's payload is a function of the order in which
the name-keyed `functions` table is iterated, shown on two iteration orders
of the same two-entry table (the entries of declaration indices 0 and 1):
`write_function_section` does not sort by declaration index, so the payload
of the reversed iteration differs, and a hash map's iteration order is not
declaration order.  The two sequences are permutations of each other, i.e.
the same table contents. -/
theorem c1_function_section_order_dependent :
    write_function_section_payload [("a", 0, funcA), ("b", 1, funcB)]
        ≠ write_function_section_payload [("b", 1, funcB), ("a", 0, funcA)]
    ∧ List.Perm [("a", 0, funcA), ("b", 1, funcB)]
        [("b", 1, funcB), ("a", 0, funcA)] := by
  constructor
  · intro h
    simp [write_function_section_payload, encode_leb128, uleb128Aux,
      funcA, funcB] at h
  · exact List.Perm.swap _ _ _

/-- C5 counterexample: the minus operator applied to two operands,
`(- 1 2)`, does not fail with an arity error — it compiles as binary
subtraction. -/
theorem c5_two_operand_minus_not_arity_error :
    emit_obj 2 [] (.List [.Sub, .NumberLiteral "1", .NumberLiteral "2"]) []
        = .ok ([.I32Const 1, .I32Const 2, .I32Sub], .I32)
    ∧ emit_obj 2 [] (.List [.Sub, .NumberLiteral "1", .NumberLiteral "2"]) []
        ≠ .error .arity := by
  have h : emit_obj 2 [] (.List [.Sub, .NumberLiteral "1", .NumberLiteral "2"]) []
      = .ok ([.I32Const 1, .I32Const 2, .I32Sub], .I32) := by rfl
  refine ⟨h, ?_⟩
  rw [h]
  simp

/-- C7: a function body holding a `Drop` opcode — here the body the
emitter itself builds for `(defn main [] 1)`, whose Unit result type
drains the last form with one `Drop` — has no byte serialization:
`write_function_body`'s opcode match has no arm for `Drop`, whatever the
F32 bit conversion is.  In particular no 0x1A byte is produced. -/
theorem c7_drop_not_serialized : ∀ f32bytes : String → List Nat,
    write_function_body f32bytes funcMain = none
    ∧ OpCode.Drop ∈ funcMain.body
    ∧ emit_forms 2 [] Ty.Unit [] [AST.NumberLiteral "1"]
        = .ok [.I32Const 1, .Drop] := by
  intro f32bytes
  refine ⟨rfl, ?_, rfl⟩
  simp [funcMain]

/-- C9: encoding each of 0, 63, 64, 8191, 8192 and 2^32 - 1 with the
unsigned varint encoder and decoding the bytes with a standard LEB128
unsigned decoder yields the value back. -/
theorem c9_leb128_roundtrip :
    decode_uleb128 (encode_leb128 0) = some 0
    ∧ decode_uleb128 (encode_leb128 63) = some 63
    ∧ decode_uleb128 (encode_leb128 64) = some 64
    ∧ decode_uleb128 (encode_leb128 8191) = some 8191
    ∧ decode_uleb128 (encode_leb128 8192) = some 8192
    ∧ decode_uleb128 (encode_leb128 4294967295) = some 4294967295 := by
  decide


/-- Bind of a success in the `Except` monad reduces to the continuation. -/
theorem except_bind_ok {e a b : Type} (x : a) (f : a → Except e b) :
    ((Except.ok x : Except e a) >>= f) = f x := rfl

/-- A digit character is not the plus sign. -/
theorem digit_ne_plus {c : Char} (h : c.isDigit = true) : ¬c = '+' := by
  intro he
  subst he
  exact absurd h (by decide)

/-- A digit character is not the minus sign. -/
theorem digit_ne_minus {c : Char} (h : c.isDigit = true) : ¬c = '-' := by
  intro he
  subst he
  exact absurd h (by decide)

/-- On an all-digit list, `takeDigits` consumes everything. -/
theorem takeDigits_all_digits (cs : List Char) (h : cs.all Char.isDigit = true) :
    takeDigits cs = (cs, []) := by
  induction cs with
  | nil => rfl
  | cons c rest ih =>
    simp only [List.all_cons, Bool.and_eq_true] at h
    simp [takeDigits, h.1, ih h.2]

/-- On a nonempty all-digit literal, `parseI32` succeeds exactly below the
i32 bound, with the digits' value. -/
theorem parseI32_digits (s : String) (c : Char) (cs : List Char)
    (hsd : s.data = c :: cs) (hall : (c :: cs).all Char.isDigit = true) :
    parseI32 s = if (digitsToNat s.data : Int) ≤ 2147483647
      then some ((digitsToNat s.data : Int)) else none := by
  have hc : c.isDigit = true := by
    simp only [List.all_cons, Bool.and_eq_true] at hall
    exact hall.1
  rw [parseI32, hsd]
  simp only [digit_ne_minus hc, digit_ne_plus hc, if_false, hsd]
  simp only [List.isEmpty_cons, hall, if_true, one_mul]
  have hnonneg : (-2147483648 : Int) ≤ (digitsToNat (c :: cs) : Int) := by
    have := Int.ofNat_nonneg (digitsToNat (c :: cs))
    omega
  by_cases hb : ((digitsToNat (c :: cs) : Int) ≤ 2147483647)
  · simp [hb, hnonneg]
  · simp [hb]

/-- A nonempty all-digit literal is accepted by the float parser. -/
theorem parseF32Ok_digits (s : String) (c : Char) (cs : List Char)
    (hsd : s.data = c :: cs) (hall : (c :: cs).all Char.isDigit = true) :
    parseF32Ok s = true := by
  have hc : c.isDigit = true := by
    simp only [List.all_cons, Bool.and_eq_true] at hall
    exact hall.1
  rw [parseF32Ok, hsd]
  have hstrip : stripSign (c :: cs) = c :: cs := by
    simp [stripSign, digit_ne_plus hc, digit_ne_minus hc]
  rw [hstrip]
  have hnum : numberOk (c :: cs) = true := by
    rw [numberOk, takeDigits_all_digits _ hall]
    simp [expOk]
  rw [hnum]
  simp

/-- C3: for every binary arithmetic operator, operands of types I32 and
F32 in either order produce an F32 result; the I32 operand's code gets the
`F32ConvertI32S` conversion appended directly after it and the F32
operand's code is left alone; the assembled stream is lhs-code then
rhs-code then the operator's F32 opcode.  The last conjunct ties the
surface forms `(+ a b)`, `(- a b)`, `(* a b)`, `(/ a b)` to
`emit_bin_exp`. -/
theorem c3_mixed_numeric_binop :
    (∀ (fuel : Nat) (functions : FuncTable) (op : BinOp) (lhs rhs : AST)
        (env : Env) (lc rc : List OpCode),
      emit_obj fuel functions lhs env = .ok (lc, .I32) →
      emit_obj fuel functions rhs env = .ok (rc, .F32) →
      emit_bin_exp fuel functions op lhs rhs env
        = .ok ((lc ++ [.F32ConvertI32S]) ++ rc ++ [f32_opcode op], .F32))
    ∧ (∀ (fuel : Nat) (functions : FuncTable) (op : BinOp) (lhs rhs : AST)
        (env : Env) (lc rc : List OpCode),
      emit_obj fuel functions lhs env = .ok (lc, .F32) →
      emit_obj fuel functions rhs env = .ok (rc, .I32) →
      emit_bin_exp fuel functions op lhs rhs env
        = .ok (lc ++ (rc ++ [.F32ConvertI32S]) ++ [f32_opcode op], .F32))
    ∧ (∀ (fuel : Nat) (functions : FuncTable) (a b : AST) (env : Env),
      emit_obj (fuel + 1) functions (.List [.Add, a, b]) env
          = emit_bin_exp fuel functions .Add a b env
      ∧ emit_obj (fuel + 1) functions (.List [.Sub, a, b]) env
          = emit_bin_exp fuel functions .Sub a b env
      ∧ emit_obj (fuel + 1) functions (.List [.Mul, a, b]) env
          = emit_bin_exp fuel functions .Mul a b env
      ∧ emit_obj (fuel + 1) functions (.List [.Div, a, b]) env
          = emit_bin_exp fuel functions .Div a b env) := by
  refine ⟨?_, ?_, ?_⟩
  · intro fuel functions op lhs rhs env lc rc h1 h2
    rw [emit_bin_exp, h1, except_bind_ok, h2, except_bind_ok]
    rfl
  · intro fuel functions op lhs rhs env lc rc h1 h2
    rw [emit_bin_exp, h1, except_bind_ok, h2, except_bind_ok]
    rfl
  · intro fuel functions a b env
    exact ⟨rfl, rfl, rfl, rfl⟩

/-- C4: in the body-form loop of `emit_func`, a form before the last is
drained with one `Drop` per dissolved slot of its computed type; the last
form is likewise drained — whatever its computed type — when the declared
result type is Unit; with a non-Unit declared result type, emission fails
with the return-type mismatch error exactly when the last form's computed
type differs from the declared one, and otherwise leaves the form's code
undrained. -/
theorem c4_body_form_drain :
    (∀ (fuel : Nat) (functions : FuncTable) (rt : Ty) (env : Env)
        (form : AST) (rest : List AST) (c : List OpCode) (t : Ty)
        (c2 : List OpCode),
      rest ≠ [] →
      emit_obj fuel functions form env = .ok (c, t) →
      emit_forms fuel functions rt env rest = .ok c2 →
      emit_forms fuel functions rt env (form :: rest)
        = .ok (c ++ List.replicate (dissolve_type t).length .Drop ++ c2))
    ∧ (∀ (fuel : Nat) (functions : FuncTable) (env : Env) (form : AST)
        (c : List OpCode) (t : Ty),
      emit_obj fuel functions form env = .ok (c, t) →
      emit_forms fuel functions .Unit env [form]
        = .ok (c ++ List.replicate (dissolve_type t).length .Drop))
    ∧ (∀ (fuel : Nat) (functions : FuncTable) (rt : Ty) (env : Env)
        (form : AST) (c : List OpCode) (t : Ty),
      rt ≠ .Unit →
      emit_obj fuel functions form env = .ok (c, t) →
      t ≠ rt →
      emit_forms fuel functions rt env [form]
        = .error (.returnTypeMismatch rt t))
    ∧ (∀ (fuel : Nat) (functions : FuncTable) (rt : Ty) (env : Env)
        (form : AST) (c : List OpCode),
      rt ≠ .Unit →
      emit_obj fuel functions form env = .ok (c, rt) →
      emit_forms fuel functions rt env [form] = .ok c) := by
  refine ⟨?_, ?_, ?_, ?_⟩
  · intro fuel functions rt env form rest c t c2 hne h1 h2
    have hre : rest.isEmpty = false := by
      cases rest with
      | nil => exact absurd rfl hne
      | cons x xs => rfl
    simp [emit_forms, hre, h1, h2, except_bind_ok]
  · intro fuel functions env form c t h1
    simp [emit_forms, h1, except_bind_ok]
  · intro fuel functions rt env form c t hrt h1 ht
    simp [emit_forms, h1, except_bind_ok, hrt, ht]
  · intro fuel functions rt env form c hrt h1
    simp [emit_forms, h1, except_bind_ok, hrt]

/-- C5 amended: the minus operator with zero operands or with three or
more fails with the arity error; with exactly two operands it is binary
subtraction (`emit_bin_exp`), not an error; with one F32 operand it emits
the operand then `F32Neg`; with one I32 operand a zero constant, the
operand, then `I32Sub`; with one operand of any other type it fails with
the type mismatch error. -/
theorem c5_unary_minus_amended :
    (∀ (fuel : Nat) (functions : FuncTable) (env : Env),
      emit_obj (fuel + 1) functions (.List [.Sub]) env = .error .arity)
    ∧ (∀ (fuel : Nat) (functions : FuncTable) (env : Env) (a b c : AST)
        (rest : List AST),
      emit_obj (fuel + 1) functions (.List (.Sub :: a :: b :: c :: rest)) env
        = .error .arity)
    ∧ (∀ (fuel : Nat) (functions : FuncTable) (a b : AST) (env : Env),
      emit_obj (fuel + 1) functions (.List [.Sub, a, b]) env
        = emit_bin_exp fuel functions .Sub a b env)
    ∧ (∀ (fuel : Nat) (functions : FuncTable) (operand : AST) (env : Env)
        (c : List OpCode),
      emit_obj fuel functions operand env = .ok (c, .F32) →
      emit_obj (fuel + 1) functions (.List [.Sub, operand]) env
        = .ok (c ++ [.F32Neg], .F32))
    ∧ (∀ (fuel : Nat) (functions : FuncTable) (operand : AST) (env : Env)
        (c : List OpCode),
      emit_obj fuel functions operand env = .ok (c, .I32) →
      emit_obj (fuel + 1) functions (.List [.Sub, operand]) env
        = .ok ([.I32Const 0] ++ c ++ [.I32Sub], .I32))
    ∧ (∀ (fuel : Nat) (functions : FuncTable) (operand : AST) (env : Env)
        (c : List OpCode) (t : Ty),
      emit_obj fuel functions operand env = .ok (c, t) →
      t ≠ .I32 → t ≠ .F32 →
      emit_obj (fuel + 1) functions (.List [.Sub, operand]) env
        = .error .typeMismatch) := by
  refine ⟨?_, ?_, ?_, ?_, ?_, ?_⟩
  · intro fuel functions env
    rfl
  · intro fuel functions env a b c rest
    rfl
  · intro fuel functions a b env
    rfl
  · intro fuel functions operand env c h1
    show (do
        let o ← emit_obj fuel functions operand env
        emit_unary_core o.2 o.1) = Except.ok (c ++ [.F32Neg], .F32)
    rw [h1, except_bind_ok]
    rfl
  · intro fuel functions operand env c h1
    show (do
        let o ← emit_obj fuel functions operand env
        emit_unary_core o.2 o.1) = Except.ok ([.I32Const 0] ++ c ++ [.I32Sub], .I32)
    rw [h1, except_bind_ok]
    rfl
  · intro fuel functions operand env c t h1 ht1 ht2
    show (do
        let o ← emit_obj fuel functions operand env
        emit_unary_core o.2 o.1) = Except.error .typeMismatch
    rw [h1, except_bind_ok]
    cases t with
    | I32 => exact absurd rfl ht1
    | F32 => exact absurd rfl ht2
    | Bool => rfl
    | Unit => rfl

/-- C8: a list form headed by a symbol other than `let` whose name is
absent from the function table at the point it is emitted fails with the
unknown-function error — the lookup is eager and happens before any
argument is emitted, so emission neither succeeds nor diverges. -/
theorem c8_unknown_function_eager (fuel : Nat) (functions : FuncTable)
    (name : String) (args : List AST) (env : Env)
    (hlet : name ≠ "let") (hnone : lookupFunction functions name = none) :
    emit_obj (fuel + 1) functions (.List (.Symbol name :: args)) env
      = .error (.unknownFunction name) := by
  show (if name = "let" then .error .unsupported
    else
      match lookupFunction functions name with
      | none => .error (.unknownFunction name)
      | some (index, func) => do
        let argResults ← args.mapM (fun a => emit_obj fuel functions a env)
        .ok (emit_function_call index func argResults))
    = Except.error (.unknownFunction name)
  rw [if_neg hlet, hnone]

/-- Witness for C8 at a concrete input: calling `g` in a module whose
function table is empty fails with the unknown-function error. -/
theorem c8_unknown_function_eager_witness :
    emit_obj 1 [] (.List [.Symbol "g"]) [] = .error (.unknownFunction "g") :=
  c8_unknown_function_eager 0 [] "g" [] [] (by decide) rfl

/-- C10: a number literal is first tried as an i32; a nonempty all-digit
literal is emitted as an `I32Const` of type I32 when its value fits the
i32 range, and otherwise — not rejected — falls through to the float parse
and is emitted as an `F32Const` of type F32, so the emitted type of an
integer-looking literal depends on its magnitude. -/
theorem c10_literal_magnitude (fuel : Nat) (functions : FuncTable)
    (env : Env) (s : String)
    (hne : s.data ≠ []) (hdig : s.data.all Char.isDigit = true) :
    ((digitsToNat s.data : Int) ≤ 2147483647 →
      emit_obj (fuel + 1) functions (.NumberLiteral s) env
        = .ok ([.I32Const (digitsToNat s.data)], .I32))
    ∧ (2147483647 < (digitsToNat s.data : Int) →
      emit_obj (fuel + 1) functions (.NumberLiteral s) env
        = .ok ([.F32Const s], .F32)) := by
  obtain ⟨c, cs, hcs⟩ : ∃ c cs, s.data = c :: cs := by
    cases h : s.data with
    | nil => exact absurd h hne
    | cons c cs => exact ⟨c, cs, rfl⟩
  have hall : (c :: cs).all Char.isDigit = true := by rw [← hcs]; exact hdig
  have hpi := parseI32_digits s c cs hcs hall
  have hpf := parseF32Ok_digits s c cs hcs hall
  have hdisp : emit_obj (fuel + 1) functions (AST.NumberLiteral s) env =
      (match parseI32 s with
        | some v => Except.ok ([OpCode.I32Const v], Ty.I32)
        | none =>
          if parseF32Ok s = true then Except.ok ([OpCode.F32Const s], Ty.F32)
          else Except.error EmitErr.numberFormat) := rfl
  constructor
  · intro hle
    rw [if_pos hle] at hpi
    rw [hdisp, hpi]
  · intro hgt
    rw [if_neg (not_le.mpr hgt)] at hpi
    rw [hdisp, hpi, hpf]
    rfl

/-- Witness for C10 at a concrete input: the all-digit literal
`3000000000` exceeds the i32 range and is emitted as an F32 constant. -/
theorem c10_literal_magnitude_witness :
    emit_obj 1 [] (.NumberLiteral "3000000000") []
      = .ok ([.F32Const "3000000000"], .F32) :=
  (c10_literal_magnitude 0 [] [] "3000000000" (by decide) (by decide)).2
    (by decide)


/-- Length of the reference table shape equals the source list's. -/
theorem withIndices_length (l : List Signature) (k : Nat) :
    (withIndices l k).length = l.length := by
  induction l generalizing k with
  | nil => rfl
  | cons s rest ih => simp [withIndices, ih]

/-- Appending one signature to the reference table shape. -/
theorem withIndices_append (l : List Signature) (s : Signature) (k : Nat) :
    withIndices (l ++ [s]) k
      = withIndices l k ++ [(s, (k + l.length) % 65536)] := by
  induction l generalizing k with
  | nil => simp [withIndices]
  | cons a rest ih =>
    show (a, k % 65536) :: withIndices (rest ++ [s]) (k + 1)
        = (a, k % 65536) :: (withIndices rest (k + 1)
            ++ [(s, (k + (rest.length + 1)) % 65536)])
    rw [ih (k + 1)]
    have h : k + 1 + rest.length = k + (rest.length + 1) := by omega
    rw [h]

/-- First components of the reference table shape are the source list. -/
theorem withIndices_map_fst (l : List Signature) (k : Nat) :
    (withIndices l k).map Prod.fst = l := by
  induction l generalizing k with
  | nil => rfl
  | cons s rest ih => simp [withIndices, ih]

/-- Second components of the reference table shape are consecutive ranks,
reduced modulo the u16 space. -/
theorem withIndices_map_snd (l : List Signature) (k : Nat) :
    (withIndices l k).map Prod.snd
      = (List.range' k l.length).map (fun n => n % 65536) := by
  induction l generalizing k with
  | nil => rfl
  | cons s rest ih => simp [withIndices, ih (k + 1), List.range'_succ]

/-- Lookup in the reference table shape fails exactly for absent keys. -/
theorem sigLookup_withIndices_none_iff (l : List Signature) (k : Nat)
    (s : Signature) : sigLookup (withIndices l k) s = none ↔ s ∉ l := by
  induction l generalizing k with
  | nil => simp [withIndices, sigLookup]
  | cons a rest ih =>
    simp only [withIndices, sigLookup]
    by_cases ha : a = s
    · subst ha
      simp
    · simp only [if_neg ha, ih (k + 1), List.mem_cons]
      constructor
      · intro h hmem
        rcases hmem with h2 | h2
        · exact ha h2.symm
        · exact h h2
      · intro h h2
        exact h (Or.inr h2)

/-- A successful lookup in the reference table shape names a position of
the key, and the found index is that position's rank modulo the u16
space. -/
theorem sigLookup_withIndices_some (l : List Signature) (k : Nat)
    (s : Signature) (i : Nat)
    (h : sigLookup (withIndices l k) s = some i) :
    ∃ j, l[j]? = some s ∧ i = (k + j) % 65536 := by
  induction l generalizing k with
  | nil => simp [withIndices, sigLookup] at h
  | cons a rest ih =>
    simp only [withIndices, sigLookup] at h
    by_cases ha : a = s
    · rw [if_pos ha] at h
      have hi := Option.some.inj h
      exact ⟨0, by simp [ha], by omega⟩
    · rw [if_neg ha] at h
      obtain ⟨j, hj, hi⟩ := ih (k + 1) h
      refine ⟨j + 1, by simpa using hj, ?_⟩
      rw [hi]
      congr 1
      omega

/-- Lookup in the reference table shape finds the first occurrence of a
present key and returns its rank modulo the u16 space. -/
theorem sigLookup_withIndices_of_getElem (l : List Signature) :
    ∀ (k j : Nat) (s : Signature), l[j]? = some s → s ∉ l.take j →
    sigLookup (withIndices l k) s = some ((k + j) % 65536) := by
  induction l with
  | nil =>
    intro k j s hget _
    simp at hget
  | cons a rest ih =>
    intro k j s hget htake
    cases j with
    | zero =>
      have ha : a = s := by simpa using hget
      simp [withIndices, sigLookup, ha]
    | succ j =>
      have hget2 : rest[j]? = some s := by simpa using hget
      rw [List.take_succ_cons] at htake
      simp only [List.mem_cons, not_or] at htake
      have hne : ¬a = s := fun h => htake.1 h.symm
      simp only [withIndices, sigLookup, if_neg hne]
      rw [ih (k + 1) j s hget2 htake.2]
      congr 1
      omega

/-- A key found in a table is found with the same index after entries are
appended on the right. -/
theorem sigLookup_append_left (t t2 : SigTable) (s : Signature) (i : Nat)
    (h : sigLookup t s = some i) : sigLookup (t ++ t2) s = some i := by
  induction t with
  | nil => simp [sigLookup] at h
  | cons p rest ih =>
    obtain ⟨a, x⟩ := p
    simp only [sigLookup] at h
    simp only [List.cons_append, sigLookup]
    by_cases ha : a = s
    · rw [if_pos ha] at h ⊢
      exact h
    · rw [if_neg ha] at h ⊢
      exact ih h

/-- Interning any signature preserves every index already assigned. -/
theorem internSignature_preserves (t : SigTable) (s s2 : Signature) (i : Nat)
    (h : sigLookup t s = some i) :
    sigLookup (internSignature t s2).1 s = some i := by
  unfold internSignature
  cases hl : sigLookup t s2 with
  | some x => simpa using h
  | none => exact sigLookup_append_left t _ s i h

/-- Folding the interning step preserves every index already assigned. -/
theorem foldl_intern_preserves (more : List Signature) :
    ∀ (t : SigTable) (s : Signature) (i : Nat), sigLookup t s = some i →
    sigLookup (more.foldl (fun t2 s2 => (internSignature t2 s2).1) t) s
      = some i := by
  induction more with
  | nil =>
    intro t s i h
    exact h
  | cons m rest ih =>
    intro t s i h
    exact ih _ s i (internSignature_preserves t s m i h)

/-- Folding the interning step over any request sequence, starting from a
reachable table, yields the reference shape over the requests' distinct
first occurrences. -/
theorem foldl_intern_withIndices (sigs : List Signature) :
    ∀ acc : List Signature,
    sigs.foldl (fun t s2 => (internSignature t s2).1) (withIndices acc 0)
      = withIndices
          (sigs.foldl (fun a s2 => if s2 ∈ a then a else a ++ [s2]) acc) 0 := by
  induction sigs with
  | nil =>
    intro acc
    rfl
  | cons s rest ih =>
    intro acc
    simp only [List.foldl_cons]
    by_cases hm : s ∈ acc
    · cases hl2 : sigLookup (withIndices acc 0) s with
      | none => exact absurd ((sigLookup_withIndices_none_iff acc 0 s).mp hl2) (by simpa using hm)
      | some x =>
        have hstep : (internSignature (withIndices acc 0) s).1 = withIndices acc 0 := by
          simp [internSignature, hl2]
        rw [hstep, if_pos hm]
        exact ih acc
    · have hl2 : sigLookup (withIndices acc 0) s = none :=
        (sigLookup_withIndices_none_iff acc 0 s).mpr hm
      have hstep : (internSignature (withIndices acc 0) s).1
          = withIndices (acc ++ [s]) 0 := by
        simp [internSignature, hl2, withIndices_length, withIndices_append]
      rw [hstep, if_neg hm]
      exact ih (acc ++ [s])

/-- The interning table a module reaches is exactly the distinct interned
signatures in first-insertion order, the k-th carrying index
`k % 65536`. -/
theorem internAll_eq_withIndices (sigs : List Signature) :
    internAll sigs = withIndices (distincts sigs) 0 :=
  foldl_intern_withIndices sigs []

/-- Small ranks are untouched by the u16 reduction. -/
theorem range'_map_mod (len : Nat) : ∀ k : Nat, k + len ≤ 65536 →
    (List.range' k len).map (fun n => n % 65536) = List.range' k len := by
  induction len with
  | zero =>
    intro k _
    rfl
  | succ len ih =>
    intro k hk
    rw [List.range'_succ]
    simp only [List.map_cons]
    rw [Nat.mod_eq_of_lt (by omega), ih (k + 1) (by omega)]

/-- With fewer than 2^16 entries the reference table shape is already
sorted by index, so the serializer's sort leaves it unchanged. -/
theorem sortByIndex_withIndices (l : List Signature) : ∀ k : Nat,
    k + l.length ≤ 65536 → sortByIndex (withIndices l k) = withIndices l k := by
  induction l with
  | nil =>
    intro k _
    rfl
  | cons s rest ih =>
    intro k hk
    have hk2 : k + 1 + rest.length ≤ 65536 := by
      simp only [List.length_cons] at hk
      omega
    show insertByIndex (s, k % 65536) (sortByIndex (withIndices rest (k + 1)))
      = withIndices (s :: rest) k
    rw [ih (k + 1) hk2]
    cases rest with
    | nil => rfl
    | cons r rs =>
      have h1 : k % 65536 = k := by
        apply Nat.mod_eq_of_lt
        simp only [List.length_cons] at hk
        omega
      have h2 : (k + 1) % 65536 = k + 1 := by
        apply Nat.mod_eq_of_lt
        simp only [List.length_cons] at hk
        omega
      show insertByIndex (s, k % 65536)
          ((r, (k + 1) % 65536) :: withIndices rs (k + 1 + 1))
        = withIndices (s :: r :: rs) k
      rw [insertByIndex, h1, h2, if_pos (Nat.le_succ k)]
      simp [withIndices, h1, h2]

/-- Folding the distinct-collection step over a duplicate-free list
appends the whole list. -/
theorem foldl_distincts_of_nodup (l : List Signature) :
    ∀ acc : List Signature, (∀ a, a ∈ l → a ∉ acc) → l.Nodup →
    l.foldl (fun a s2 => if s2 ∈ a then a else a ++ [s2]) acc = acc ++ l := by
  induction l with
  | nil =>
    intro acc _ _
    simp
  | cons x rest ih =>
    intro acc hnin hnd
    have hx := List.nodup_cons.mp hnd
    simp only [List.foldl_cons]
    rw [if_neg (hnin x (by simp))]
    rw [ih (acc ++ [x]) ?_ hx.2]
    · simp
    · intro a ha
      simp only [List.mem_append, List.mem_singleton, not_or]
      refine ⟨hnin a (by simp [ha]), ?_⟩
      intro he
      rw [he] at ha
      exact hx.1 ha

/-- On a duplicate-free request sequence, every request is distinct. -/
theorem distincts_of_nodup (l : List Signature) (h : l.Nodup) :
    distincts l = l := by
  have hfold := foldl_distincts_of_nodup l [] (by simp) h
  simpa [distincts] using hfold

/-- Two arity signatures agree only at equal arities. -/
theorem sigOfArity_injective {m n : Nat} (h : sigOfArity m = sigOfArity n) :
    m = n := by
  have hlen := congrArg (fun x => x.params.length) h
  simpa [sigOfArity] using hlen

/-- The 65537 arity signatures are pairwise distinct. -/
theorem bigSigs_nodup : bigSigs.Nodup :=
  List.Nodup.map (fun _ _ h => sigOfArity_injective h) (List.nodup_range 65537)


/-- A one-byte-representable value is its own unsigned varint. -/
theorem encode_leb128_small (n : Nat) (h : n < 128) : encode_leb128 n = [n] := by
  show uleb128Aux 64 n = [n]
  unfold uleb128Aux
  simp [Nat.div_eq_of_lt h, Nat.mod_eq_of_lt h]

/-- C2 amended: structurally equal signatures intern to the same index
(interning is a function of the signature value under structural lookup);
the reachable interning table is exactly the distinct signatures in
first-insertion order, the k-th carrying index `k % 65536` (the `as u16`
cast); while at most 2^16 distinct signatures exist the assigned indices
are exactly the insertion ranks 0, 1, 2, …; an index, once assigned, is
returned unchanged by every later lookup; and under the same bound the
serialized Type section has the signature of index i as its i-th entry and
carries that index exactly once. -/
theorem c2_signature_interning_amended :
    (∀ (table : SigTable) (s1 s2 : Signature), s1 = s2 →
      (internSignature table s1).2 = (internSignature table s2).2)
    ∧ (∀ sigs : List Signature, internAll sigs = withIndices (distincts sigs) 0)
    ∧ (∀ sigs : List Signature, (distincts sigs).length ≤ 65536 →
      (internAll sigs).map Prod.snd = List.range (distincts sigs).length)
    ∧ (∀ (sigs more : List Signature) (s : Signature) (i : Nat),
      sigLookup (internAll sigs) s = some i →
      sigLookup (internAll (sigs ++ more)) s = some i)
    ∧ (∀ (sigs : List Signature) (s : Signature) (i : Nat),
      (distincts sigs).length ≤ 65536 →
      sigLookup (internAll sigs) s = some i →
      (typeSectionSignatures (internAll sigs))[i]? = some s
      ∧ ((internAll sigs).map Prod.snd).count i = 1) := by
  refine ⟨?_, internAll_eq_withIndices, ?_, ?_, ?_⟩
  · intro table s1 s2 h
    rw [h]
  · intro sigs hle
    rw [internAll_eq_withIndices, withIndices_map_snd,
      range'_map_mod _ 0 (by omega), List.range_eq_range']
  · intro sigs more s i h
    have heq : internAll (sigs ++ more)
        = more.foldl (fun t s2 => (internSignature t s2).1) (internAll sigs) := by
      simp [internAll, List.foldl_append]
    rw [heq]
    exact foldl_intern_preserves more (internAll sigs) s i h
  · intro sigs s i hle h
    rw [internAll_eq_withIndices] at h
    obtain ⟨j, hj, hi⟩ := sigLookup_withIndices_some _ 0 s i h
    have hjlt : j < (distincts sigs).length := by
      by_contra hge
      rw [List.getElem?_eq_none (by omega)] at hj
      exact Option.noConfusion hj
    have hij : i = j := by
      rw [hi, Nat.zero_add]
      exact Nat.mod_eq_of_lt (by omega)
    subst hij
    constructor
    · rw [internAll_eq_withIndices]
      unfold typeSectionSignatures
      rw [sortByIndex_withIndices _ 0 (by omega), withIndices_map_fst]
      exact hj
    · rw [internAll_eq_withIndices, withIndices_map_snd,
        range'_map_mod _ 0 (by omega), ← List.range_eq_range']
      exact List.count_eq_one_of_mem (List.nodup_range _)
        (List.mem_range.mpr hjlt)

/-- C2 counterexample: with 65537 structurally distinct signatures
interned, the `as u16` cast wraps, so the signature of insertion rank
65536 (the 65537th distinct one) is assigned index 0, shared with the
distinct signature of rank 0 — its index is not its insertion rank, and
the Type section does not carry index 0 exactly once. -/
theorem c2_interned_index_u16_wraparound :
    distincts bigSigs = bigSigs
    ∧ bigSigs[65536]? = some (sigOfArity 65536)
    ∧ sigLookup (internAll bigSigs) (sigOfArity 65536) = some 0
    ∧ sigLookup (internAll bigSigs) (sigOfArity 0) = some 0
    ∧ sigOfArity 65536 ≠ sigOfArity 0 := by
  have hnd : bigSigs.Nodup := bigSigs_nodup
  have hd : distincts bigSigs = bigSigs := distincts_of_nodup bigSigs hnd
  have hget : bigSigs[65536]? = some (sigOfArity 65536) := by
    show ((List.range 65537).map sigOfArity)[65536]? = _
    rw [List.getElem?_map, List.getElem?_range (by omega)]
    rfl
  have hget0 : bigSigs[0]? = some (sigOfArity 0) := by
    show ((List.range 65537).map sigOfArity)[0]? = _
    rw [List.getElem?_map, List.getElem?_range (by omega)]
    rfl
  have htake : sigOfArity 65536 ∉ bigSigs.take 65536 := by
    intro hmem
    have htk : bigSigs.take 65536 = (List.range 65536).map sigOfArity := by
      show ((List.range 65537).map sigOfArity).take 65536 = _
      rw [← List.map_take, List.take_range]
      congr 2
    rw [htk] at hmem
    obtain ⟨m, hm, heq⟩ := List.mem_map.mp hmem
    have hm2 := sigOfArity_injective heq
    rw [hm2] at hm
    exact absurd (List.mem_range.mp hm) (by omega)
  have h65536 : sigLookup (internAll bigSigs) (sigOfArity 65536) = some 0 := by
    rw [internAll_eq_withIndices, hd]
    have hlk := sigLookup_withIndices_of_getElem bigSigs 0 65536
      (sigOfArity 65536) hget htake
    simpa using hlk
  have h0 : sigLookup (internAll bigSigs) (sigOfArity 0) = some 0 := by
    rw [internAll_eq_withIndices, hd]
    have hlk := sigLookup_withIndices_of_getElem bigSigs 0 0
      (sigOfArity 0) hget0 (by simp)
    simpa using hlk
  refine ⟨hd, hget, h65536, h0, ?_⟩
  intro h
  exact absurd (sigOfArity_injective h) (by omega)

/-- C6 amended: for a module with at most 2^16 distinct signatures, the
Type section payload is the unsigned-varint count of distinct signatures
followed by the signatures in ascending interned-index order, each written
by `write_signature` — whose param and result counts are single bytes
(`len as u8`), not unsigned varints; the single byte coincides with the
unsigned-varint encoding exactly while the count is below 128. -/
theorem c6_type_section_payload_amended :
    (∀ sigs : List Signature, (distincts sigs).length ≤ 65536 →
      write_type_section_payload (internAll sigs)
        = encode_leb128 (distincts sigs).length
          ++ (distincts sigs).flatMap write_signature)
    ∧ (∀ s : Signature, s.params.length < 128 → s.results.length < 128 →
      write_signature s = write_signature_claimed s) := by
  constructor
  · intro sigs hle
    rw [write_type_section_payload, internAll_eq_withIndices]
    unfold typeSectionSignatures
    rw [sortByIndex_withIndices _ 0 (by omega), withIndices_map_fst,
      withIndices_length]
  · intro s hp hr
    rw [write_signature, write_signature_claimed,
      encode_leb128_small _ hp, encode_leb128_small _ hr,
      Nat.mod_eq_of_lt (by omega), Nat.mod_eq_of_lt (by omega)]

/-- Witness for C6 amended at a concrete input: a module that interns the
one-param signatures `sigI`, `sigF`, `sigI` serializes a Type section of
two signatures in index order 0, 1, with one-byte counts equal to their
varints. -/
theorem c6_type_section_payload_amended_witness :
    write_type_section_payload (internAll [sigI, sigF, sigI])
      = encode_leb128 (distincts [sigI, sigF, sigI]).length
        ++ (distincts [sigI, sigF, sigI]).flatMap write_signature
    ∧ write_signature sigI = write_signature_claimed sigI :=
  ⟨(c6_type_section_payload_amended.1 [sigI, sigF, sigI] (by decide)),
    (c6_type_section_payload_amended.2 sigI (by decide) (by decide))⟩

/-- C6 counterexample: a signature of 128 params breaks the claimed
varint layout — `write_signature` emits its param count as the single
truncated byte 0x80 where the unsigned varint is the two bytes
0x80 0x01. -/
theorem c6_param_count_not_varint :
    write_type_section_payload (internAll [sig128])
      ≠ encode_leb128 1 ++ write_signature_claimed sig128 := by
  decide

end Wisp

